import Mathlib

/-!
Verification development for the maze game core: the maze data model and
wall query (`FixedMazeProvider.ts` / `RandomMazeProvider`, both operating on
the shared `MazeData` record of `IMazeProvider.ts`), the random maze
generator (recursive-backtracker carve, BFS reachability check, greedy
repair carve), and the grid movement controller
(`MovementController.ts` / `Character.ts`).

Conventions of the shallow embedding:
* A grid is a `List (List ℕ)` mirroring the TypeScript `number[][]`
  (`1` = wall, `0` = path, row-major: `grid[y][x]`).
* Grid cell coordinates that are always non-negative in the source
  (`startPosition`, `exitPosition`, BFS queue entries) are `ℕ`;
  coordinates that the source allows to be any JS number (`isWall`
  arguments, the movement controller's candidate cell, carve neighbours
  `cx ± 2`) are `ℤ`.
* `Math.random()` draws are modelled by a stream `rnd : ℕ → ℕ` consumed at
  increasing indices; a JS draw `Math.floor(r * n)` (whose value ranges over
  exactly `{0, …, n-1}` for `r ∈ [0,1)`) is embedded as `rnd k % n`.  Every
  concrete execution of the source corresponds to some stream and
  conversely, so universally quantifying over `rnd` quantifies over all
  sequences of random draws.
* The unbounded recursions of the source (`carvePassagesFrom`, the BFS
  `while` loop) take an explicit fuel argument.  In the source the carve
  recursion depth is bounded by the number of carved cells (a cell is set
  to `0` immediately before recursing into it and no cell is ever reset to
  `1`) and the BFS dequeues at most one entry per enqueued cell (cells are
  enqueued at most once, guarded by `visited`), so fuel `w*h + 1` is never
  exhausted; the theorems below are proved by invariants that hold for
  every fuel value.
-/

/-- `Position` of `IMazeProvider.ts` (grid cell coordinates). -/
structure Position where
  x : ℕ
  y : ℕ
deriving DecidableEq, Repr

/-- The TypeScript `number[][]` grid: row-major, `grid[y][x]`, `1` = wall. -/
abbrev Grid := List (List ℕ)

/-- Read `grid[y][x]`.  All reads in the source are bounds-guarded, so the
default (`1`, wall) is never observable. -/
def getCell (g : Grid) (y x : ℕ) : ℕ :=
  ((g[y]?.getD [])[x]?).getD 1

/-- Write `grid[y][x] = v`.  All writes in the source are in bounds;
out-of-bounds writes are a no-op here. -/
def setCell (g : Grid) (y x v : ℕ) : Grid :=
  g.set y ((g[y]?.getD []).set x v)

/-- `MazeData` of `IMazeProvider.ts`. -/
structure MazeData where
  width : ℕ
  height : ℕ
  grid : Grid
  startPosition : Position
  exitPosition : Position

/-- `isWall(x, y)` — the method body is textually identical in
`FixedMazeProvider` and `RandomMazeProvider`:
out of bounds is treated as a wall, otherwise `grid[y][x] === 1`. -/
def isWall (m : MazeData) (x y : ℤ) : Bool :=
  if x < 0 ∨ x ≥ (m.width : ℤ) ∨ y < 0 ∨ y ≥ (m.height : ℤ) then
    true
  else
    decide (getCell m.grid y.toNat x.toNat = 1)

/-- The hardcoded 16×16 grid of `FixedMazeProvider` (`1` = wall, `0` = path). -/
def fixedGrid : Grid :=
  [ [1, 1, 1, 1, 1, 1, 1, 1, 1, 1, 1, 1, 1, 1, 1, 1],
    [1, 0, 0, 0, 1, 0, 0, 0, 0, 0, 0, 0, 1, 0, 0, 1],
    [1, 0, 1, 0, 1, 0, 1, 1, 1, 1, 1, 0, 1, 0, 1, 1],
    [1, 0, 1, 0, 0, 0, 0, 0, 0, 0, 1, 0, 0, 0, 0, 1],
    [1, 0, 1, 1, 1, 1, 1, 1, 1, 0, 1, 1, 1, 1, 0, 1],
    [1, 0, 0, 0, 0, 0, 0, 0, 1, 0, 0, 0, 0, 0, 0, 1],
    [1, 1, 1, 1, 1, 1, 1, 0, 1, 1, 1, 1, 1, 1, 0, 1],
    [1, 0, 0, 0, 0, 0, 0, 0, 0, 0, 0, 0, 0, 1, 0, 1],
    [1, 0, 1, 1, 1, 1, 1, 1, 1, 0, 1, 1, 0, 1, 0, 1],
    [1, 0, 0, 0, 0, 0, 0, 0, 1, 0, 1, 0, 0, 0, 0, 1],
    [1, 1, 1, 1, 1, 1, 1, 0, 1, 0, 1, 0, 1, 1, 1, 1],
    [1, 0, 0, 0, 0, 0, 0, 0, 1, 0, 0, 0, 0, 0, 0, 1],
    [1, 0, 1, 1, 1, 1, 1, 1, 1, 1, 1, 1, 1, 1, 0, 1],
    [1, 0, 0, 0, 0, 0, 0, 0, 0, 0, 0, 0, 0, 0, 0, 1],
    [1, 1, 1, 1, 1, 1, 1, 1, 1, 1, 1, 1, 1, 1, 0, 1],
    [1, 1, 1, 1, 1, 1, 1, 1, 1, 1, 1, 1, 1, 1, 0, 1] ]

/-- The `MazeData` built by the `FixedMazeProvider` constructor:
16×16, start `(8,8)` ("Center of the maze"), exit `(14,15)`. -/
def fixedMazeData : MazeData :=
  { width := 16
    height := 16
    grid := fixedGrid
    startPosition := ⟨8, 8⟩
    exitPosition := ⟨14, 15⟩ }

/-- `Direction` of `MovementController.ts`. -/
inductive Direction where
  | up
  | down
  | left
  | right
deriving DecidableEq, Repr

/-- Logical state of a `MovementController`: current grid cell and the
`isMovingFlag` (`Moving` when an animation tween is in flight). -/
structure MCState where
  gridX : ℤ
  gridY : ℤ
  isMovingFlag : Bool
deriving DecidableEq, Repr

/-- Observable outcome of one `move` call: the returned boolean, the state
after the call, which callbacks were invoked synchronously (`onBlocked` with
its direction argument, `onMoveStart` with its direction argument), and the
`duration` of the tween scheduled for the committed move, if any.
(`onBlocked` also receives the current pixel position and `onMoveComplete`
fires when the tween ends; pixels and tween completion are rendering-side
and not part of the logical model.) -/
structure MoveOutcome where
  result : Bool
  state : MCState
  blocked : Option Direction
  moveStart : Option Direction
  tweenDuration : Option ℕ
deriving DecidableEq, Repr

/-- The unit offset of the `switch (direction)` in `MovementController.move`:
UP `y-1`, DOWN `y+1`, LEFT `x-1`, RIGHT `x+1`. -/
def dirOffset : Direction → ℤ × ℤ
  | .up => (0, -1)
  | .down => (0, 1)
  | .left => (-1, 0)
  | .right => (1, 0)

/-- `MovementController.move(direction, …)` over a wall query `q`
(the source queries `this.maze.getProvider().isWall`).
If `isMovingFlag` is set the call returns `false` at once.  Otherwise the
candidate cell is computed, a wall rejects the move (invoking `onBlocked`
with the direction), and a non-wall commits: the grid position is updated
synchronously, `onMoveStart` fires, `isMovingFlag` is set, and a tween with
the hardcoded `duration: 150` is scheduled. -/
def MovementController.move (q : ℤ → ℤ → Bool) (st : MCState) (d : Direction) :
    MoveOutcome :=
  if st.isMovingFlag then
    ⟨false, st, none, none, none⟩
  else
    let newGridX := st.gridX + (dirOffset d).1
    let newGridY := st.gridY + (dirOffset d).2
    if q newGridX newGridY then
      ⟨false, st, some d, none, none⟩
    else
      ⟨true, ⟨newGridX, newGridY, true⟩, none, some d, some 150⟩

/-- `Character.move(direction, onComplete, duration)` forwards to
`MovementController.move`.  The source passes `duration` as a fifth
argument, but `MovementController.move` declares only four parameters, so
the value is dropped and the scheduled tween always uses the hardcoded
`150`; the `duration` parameter is therefore unused here, exactly as in the
code. -/
def Character.move (q : ℤ → ℤ → Bool) (st : MCState) (d : Direction)
    (duration : ℕ) : MoveOutcome :=
  MovementController.move q st d

/-- The auto-move branch of `MainGameScene.update`: when auto-move is
active and the character is idle it re-issues the move with
`75` ("2x speed of normal 150ms"). -/
def autoMoveCall (q : ℤ → ℤ → Bool) (st : MCState) (d : Direction) :
    MoveOutcome :=
  Character.move q st d 75

/-- Number of values `Math.floor(r * (n / 2))` can take for `r ∈ [0,1)`:
`⌈n/2⌉`.  Used to embed the quadrant draws of the `RandomMazeProvider`
constructor. -/
def ceilHalf (n : ℕ) : ℕ :=
  (n + 1) / 2

/-- The `startPosition` draw of the `RandomMazeProvider` constructor:
`x = Math.floor(Math.random() * (width / 2))`, similarly `y`
(a random cell of the upper-left quadrant).  Draw indices 0 and 1 of the
stream. -/
def startPositionOf (w h : ℕ) (rnd : ℕ → ℕ) : Position :=
  ⟨rnd 0 % ceilHalf w, rnd 1 % ceilHalf h⟩

/-- The `exitPosition` draw of the constructor:
`x = Math.floor(Math.random() * (width / 2)) + (width % 2 === 0 ? width / 2
: Math.floor(width / 2))`, similarly `y` (a random cell of the bottom-right
quadrant).  For even `width` the JS `width / 2` is exact, so both branches
of the conditional are `⌊width/2⌋`.  Draw indices 2 and 3. -/
def exitPositionOf (w h : ℕ) (rnd : ℕ → ℕ) : Position :=
  ⟨rnd 2 % ceilHalf w + (if w % 2 = 0 then w / 2 else w / 2),
   rnd 3 % ceilHalf h + (if h % 2 = 0 then h / 2 else h / 2)⟩

/-- Initial grid of `generateMazeGrid`: `height` rows of `width` walls. -/
def initialGrid (w h : ℕ) : Grid :=
  List.replicate h (List.replicate w 1)

/-- The stride-2 direction list of `carvePassagesFrom`, in source order. -/
def carveDirections : List (ℤ × ℤ) :=
  [(0, -2), (2, 0), (0, 2), (-2, 0)]

/-- The JS destructuring swap `[l[i], l[j]] = [l[j], l[i]]`
(indices are always in range at the call sites). -/
def listSwap {α : Type} (l : List α) (i j : ℕ) : List α :=
  match l.get? i, l.get? j with
  | some a, some b => (l.set i b).set j a
  | _, _ => l

/-- The Fisher–Yates loop `for (let i = length-1; i > 0; i--)`:
swap index `i` with `j = Math.floor(rand() * (i + 1))`, one stream draw per
iteration.  Returns the shuffled list and the next unused stream index. -/
def fyGo {α : Type} (rnd : ℕ → ℕ) : List α → ℕ → ℕ → List α × ℕ
  | l, k, 0 => (l, k)
  | l, k, i + 1 => fyGo rnd (listSwap l (i + 1) (rnd k % (i + 2))) (k + 1) i

/-- Shuffle the direction list (Fisher–Yates over its 4 entries). -/
def shuffleDirs (rnd : ℕ → ℕ) (l : List (ℤ × ℤ)) (k : ℕ) : List (ℤ × ℤ) × ℕ :=
  fyGo rnd l k (l.length - 1)

/-- The `for (const dir of directions)` body of `carvePassagesFrom`:
for neighbour `(nx, ny) = (cx, cy) + dir`, if `nx > 0 && nx < width &&
ny > 0 && ny < height && grid[ny][nx] === 1`, carve the midpoint
`(cx + dir.x/2, cy + dir.y/2)` and the neighbour to `0` and recurse into
the neighbour (`recur`, the carve at the next recursion depth), then
continue with the remaining directions on the updated grid and stream
index. -/
def carveDirLoop (w h : ℕ) (recur : ℤ → ℤ → Grid → ℕ → Grid × ℕ) (cx cy : ℤ) :
    List (ℤ × ℤ) → Grid → ℕ → Grid × ℕ
  | [], g, k => (g, k)
  | dir :: rest, g, k =>
    let nx := cx + dir.1
    let ny := cy + dir.2
    if nx > 0 ∧ nx < (w : ℤ) ∧ ny > 0 ∧ ny < (h : ℤ) ∧
        getCell g ny.toNat nx.toNat = 1 then
      let g1 := setCell g (cy + dir.2 / 2).toNat (cx + dir.1 / 2).toNat 0
      let g2 := setCell g1 ny.toNat nx.toNat 0
      let r := recur nx ny g2 k
      carveDirLoop w h recur cx cy rest r.1 r.2
    else
      carveDirLoop w h recur cx cy rest g k

/-- `carvePassagesFrom(cx, cy)` of `RandomMazeProvider.generateMazeGrid`:
shuffle the four stride-2 directions, then process them in order
(`carveDirLoop`).  `fuel` bounds the recursion depth (see the header note);
`k` is the next random-stream index, threaded exactly as the shared
`Math.random` is consumed. -/
def carvePassagesFrom (w h : ℕ) (rnd : ℕ → ℕ) : ℕ → ℤ → ℤ → Grid → ℕ → Grid × ℕ
  | 0, _, _, g, k => (g, k)
  | fuel + 1, cx, cy, g, k =>
    let s := shuffleDirs rnd carveDirections k
    carveDirLoop w h (fun nx ny g' k' => carvePassagesFrom w h rnd fuel nx ny g' k')
      cx cy s.1 g s.2

/-- The BFS direction list of `ensurePathToExit`, in source order. -/
def bfsDirections : List (ℤ × ℤ) :=
  [(0, -1), (1, 0), (0, 1), (-1, 0)]

/-- Read `visited[y][x]` (all reads in the source are bounds-guarded). -/
def getVisited (v : List (List Bool)) (y x : ℕ) : Bool :=
  ((v[y]?.getD [])[x]?).getD false

/-- Write `visited[y][x] = true`. -/
def setVisited (v : List (List Bool)) (y x : ℕ) : List (List Bool) :=
  v.set y ((v[y]?.getD []).set x true)

/-- The all-`false` `visited` matrix of `ensurePathToExit`. -/
def initialVisited (w h : ℕ) : List (List Bool) :=
  List.replicate h (List.replicate w false)

/-- The `for (const dir of directions)` body of the BFS loop: each in-bounds,
unvisited neighbour of `current` with `grid[ny][nx] === 0` is marked visited
and pushed on the back of the queue.  (The source also records the neighbour
in a `parent` map that is never read afterwards; it is omitted.) -/
def bfsExpand (g : Grid) (w h : ℕ) (current : Position) :
    List (ℤ × ℤ) → List Position → List (List Bool) →
    List Position × List (List Bool)
  | [], queue, visited => (queue, visited)
  | dir :: rest, queue, visited =>
    let nx := (current.x : ℤ) + dir.1
    let ny := (current.y : ℤ) + dir.2
    if nx ≥ 0 ∧ nx < (w : ℤ) ∧ ny ≥ 0 ∧ ny < (h : ℤ) ∧
        getVisited visited ny.toNat nx.toNat = false ∧
        getCell g ny.toNat nx.toNat = 0 then
      bfsExpand g w h current rest (queue ++ [⟨nx.toNat, ny.toNat⟩])
        (setVisited visited ny.toNat nx.toNat)
    else
      bfsExpand g w h current rest queue visited

/-- The `while (queue.length > 0)` loop of `ensurePathToExit`: dequeue from
the front; if the dequeued cell is the exit, report reachable; otherwise
expand its neighbours and continue.  An empty queue reports unreachable.
`fuel` bounds the iteration count (see the header note). -/
def bfsLoop (g : Grid) (w h : ℕ) (ex : Position) :
    ℕ → List Position → List (List Bool) → Bool
  | 0, _, _ => false
  | _ + 1, [], _ => false
  | fuel + 1, current :: rest, visited =>
    if current.x = ex.x ∧ current.y = ex.y then
      true
    else
      let p := bfsExpand g w h current bfsDirections rest visited
      bfsLoop g w h ex fuel p.1 p.2

/-- One step of the greedy repair walk of `carvePath`: move horizontally
towards the exit first, then vertically. -/
def stepToward (cur ex : Position) : Position :=
  if cur.x < ex.x then ⟨cur.x + 1, cur.y⟩
  else if cur.x > ex.x then ⟨cur.x - 1, cur.y⟩
  else if cur.y < ex.y then ⟨cur.x, cur.y + 1⟩
  else if cur.y > ex.y then ⟨cur.x, cur.y - 1⟩
  else cur

/-- Manhattan distance between two cells (the termination measure of the
`carvePath` loop). -/
def manhattan (p q : Position) : ℕ :=
  ((p.x : ℤ) - q.x).natAbs + ((p.y : ℤ) - q.y).natAbs

/-- The `while (current.x !== exit.x || current.y !== exit.y)` loop of
`carvePath`: set the current cell to path, step towards the exit
(horizontally first), set the stepped-into cell to path, repeat.  `fuel`
bounds the iteration count; each iteration moves one cell closer to the
exit (the Manhattan distance drops by exactly 1), so the loop runs
`manhattan cur ex` times and fuel `manhattan cur ex + 1` is exact (proved
below). -/
def carvePathLoopGo (ex : Position) : ℕ → Grid → Position → Grid
  | 0, g, _ => g
  | fuel + 1, g, cur =>
    if cur.x = ex.x ∧ cur.y = ex.y then g
    else
      let g1 := setCell g cur.y cur.x 0
      let nxt := stepToward cur ex
      let g2 := setCell g1 nxt.y nxt.x 0
      carvePathLoopGo ex fuel g2 nxt

/-- The `carvePath` loop, run with its exact fuel. -/
def carvePathLoop (ex : Position) (g : Grid) (cur : Position) : Grid :=
  carvePathLoopGo ex (manhattan cur ex + 1) g cur

/-- `carvePath(grid, start, exit)`: the greedy walk followed by the final
`grid[exit.y][exit.x] = 0`. -/
def carvePath (g : Grid) (start ex : Position) : Grid :=
  setCell (carvePathLoop ex g start) ex.y ex.x 0

/-- `ensurePathToExit(grid, width, height)`: BFS from `startPosition` over
path cells; if the exit was not reached, carve a direct path.  The queue is
seeded with the start, which is marked visited up front. -/
def ensurePathToExit (g : Grid) (w h : ℕ) (start ex : Position) : Grid :=
  let exitReachable :=
    bfsLoop g w h ex (w * h + 1) [start]
      (setVisited (initialVisited w h) start.y start.x)
  if exitReachable then g else carvePath g start ex

/-- `generateMazeGrid(width, height)`: all-wall grid, open the start cell,
recursively carve from it (the first four stream draws were consumed by the
position choices, so carving consumes the stream from index 4), force the
exit open, then `ensurePathToExit`. -/
def generateMazeGrid (w h : ℕ) (rnd : ℕ → ℕ) (start ex : Position) : Grid :=
  let g0 := initialGrid w h
  let g1 := setCell g0 start.y start.x 0
  let r := carvePassagesFrom w h rnd (w * h + 1) (start.x : ℤ) (start.y : ℤ) g1 4
  let g2 := setCell r.1 ex.y ex.x 0
  ensurePathToExit g2 w h start ex

/-- The `MazeData` built by the `RandomMazeProvider` constructor for
dimensions `w × h` and random stream `rnd`. -/
def randomMazeData (w h : ℕ) (rnd : ℕ → ℕ) : MazeData :=
  let start := startPositionOf w h rnd
  let ex := exitPositionOf w h rnd
  { width := w
    height := h
    grid := generateMazeGrid w h rnd start ex
    startPosition := start
    exitPosition := ex }

/-- The loop-iteration counter of the `carvePath` loop: how many times the
`while` body runs before `cur` reaches the exit (within `fuel`). -/
def carvePathIterations (ex : Position) : ℕ → Position → ℕ
  | 0, _ => 0
  | fuel + 1, cur =>
    if cur.x = ex.x ∧ cur.y = ex.y then 0
    else carvePathIterations ex fuel (stepToward cur ex) + 1

/-- The cells the `carvePath` loop writes to `0`: the cell at the top of
each iteration (each iteration writes it and the cell stepped into, which
is the next iteration's top cell) together with the final
`grid[exit.y][exit.x] = 0`. -/
def carvePathVisited (ex : Position) : ℕ → Position → List Position
  | 0, _ => []
  | fuel + 1, cur =>
    if cur.x = ex.x ∧ cur.y = ex.y then [ex]
    else cur :: carvePathVisited ex fuel (stepToward cur ex)

/-- Well-formed dimensions: `height` rows, each addressed row of width
`width` (the shape every grid of the generator has). -/
def GridDims (g : Grid) (w h : ℕ) : Prop :=
  g.length = h ∧ ∀ y < h, (g[y]?.getD ([] : List ℕ)).length = w

/-- `g'` differs from `g` only by cells that have been set to `0`
(carving never re-creates a wall). -/
def ZeroRefines (g g' : Grid) : Prop :=
  ∀ y x, getCell g' y x = getCell g y x ∨ getCell g' y x = 0

/-- `g'` agrees with `g` on the whole top row and left column. -/
def RingPreserved (g g' : Grid) : Prop :=
  ∀ y x, x = 0 ∨ y = 0 → getCell g' y x = getCell g y x

/-- 4-connectedness (N/E/S/W) of two grid cells. -/
def AdjPos (p q : Position) : Prop :=
  (p.x = q.x ∧ (p.y + 1 = q.y ∨ q.y + 1 = p.y)) ∨
  (p.y = q.y ∧ (p.x + 1 = q.x ∨ q.x + 1 = p.x))

/-- Cells reachable from `start` by 4-connected steps through in-bounds
cells whose grid value is `0`. -/
inductive ReachZero (g : Grid) (w h : ℕ) (start : Position) : Position → Prop
  | refl : ReachZero g w h start start
  | step {p q : Position} : ReachZero g w h start p → AdjPos p q →
      q.x < w → q.y < h → getCell g q.y q.x = 0 → ReachZero g w h start q

/-- A 4-connected path of non-wall cells from the maze's start to its exit:
the invariant of §3 of the design (`isWall` is `false` on every cell of the
path, in particular every cell is in bounds). -/
def ConnectedPath (m : MazeData) (ps : List Position) : Prop :=
  ps.head? = some m.startPosition ∧ ps.getLast? = some m.exitPosition ∧
  List.Chain' AdjPos ps ∧ ∀ p ∈ ps, isWall m (p.x : ℤ) (p.y : ℤ) = false

theorem setCell_length (g : Grid) (y x v : ℕ) :
    (setCell g y x v).length = g.length := by
  simp [setCell]

theorem getCell_setCell_ne (g : Grid) (y x v y' x' : ℕ)
    (hne : y' ≠ y ∨ x' ≠ x) :
    getCell (setCell g y x v) y' x' = getCell g y' x' := by
  unfold getCell setCell
  simp only [List.getElem?_set]
  by_cases hy : y = y'
  · subst hy
    replace hne : x' ≠ x := by tauto
    by_cases hylen : y < g.length
    · simp only [reduceIte, hylen, Option.getD_some, List.getElem?_set]
      simp [Ne.symm hne]
    · simp only [reduceIte, hylen, Option.getD_none]
      simp only [List.getElem?_eq_none (show g.length ≤ y by omega)]
      simp
  · simp [hy]

theorem getCell_setCell_cases (g : Grid) (y x v y' x' : ℕ) :
    getCell (setCell g y x v) y' x' = getCell g y' x' ∨
    getCell (setCell g y x v) y' x' = v := by
  by_cases hy : y' = y
  · by_cases hx : x' = x
    · subst hy; subst hx
      unfold getCell setCell
      simp only [List.getElem?_set]
      by_cases hylen : y' < g.length
      · simp only [reduceIte, hylen, Option.getD_some, List.getElem?_set]
        by_cases hrow : x' < (g[y']?.getD ([] : List ℕ)).length
        · simp [hrow]
        · left
          simp only [List.getElem?_eq_none
            (show (g[y']?.getD ([] : List ℕ)).length ≤ x' by omega)]
          simp [hrow]
      · left
        simp only [reduceIte, hylen, Option.getD_none]
        simp only [List.getElem?_eq_none (show g.length ≤ y' by omega)]
        simp
    · exact Or.inl (getCell_setCell_ne g y x v y' x' (Or.inr hx))
  · exact Or.inl (getCell_setCell_ne g y x v y' x' (Or.inl hy))

theorem getCell_setCell_self (g : Grid) (w h y x v : ℕ) (hd : GridDims g w h)
    (hy : y < h) (hx : x < w) :
    getCell (setCell g y x v) y x = v := by
  obtain ⟨hlen, hrows⟩ := hd
  have hrw : (g[y]?.getD ([] : List ℕ)).length = w := hrows y hy
  unfold getCell setCell
  rw [List.getElem?_set, if_pos rfl, if_pos (show y < g.length by omega),
    Option.getD_some, List.getElem?_set_eq_of_lt v (by omega)]
  rfl

theorem gridDims_setCell (g : Grid) (w h y x v : ℕ) (hd : GridDims g w h) :
    GridDims (setCell g y x v) w h := by
  obtain ⟨hlen, hrows⟩ := hd
  refine ⟨by simp [setCell, hlen], fun y' hy' => ?_⟩
  have hr := hrows y' hy'
  by_cases hyy : y = y'
  · subst hyy
    unfold setCell
    rw [List.getElem?_set, if_pos rfl, if_pos (show y < g.length by omega),
      Option.getD_some, List.length_set]
    exact hr
  · unfold setCell
    rw [List.getElem?_set, if_neg hyy]
    exact hr

theorem gridDims_initialGrid (w h : ℕ) : GridDims (initialGrid w h) w h := by
  refine ⟨by simp [initialGrid], fun y hy => ?_⟩
  unfold initialGrid
  rw [List.getElem?_replicate]
  simp [hy]

theorem getCell_initialGrid (w h y x : ℕ) : getCell (initialGrid w h) y x = 1 := by
  unfold getCell initialGrid
  simp only [List.getElem?_replicate]
  by_cases hy : y < h
  · simp only [hy, if_true, Option.getD_some, List.getElem?_replicate]
    by_cases hx : x < w <;> simp [hx]
  · simp [hy]

theorem zeroRefines_refl (g : Grid) : ZeroRefines g g :=
  fun _ _ => Or.inl rfl

theorem zeroRefines_trans {g₁ g₂ g₃ : Grid} (h₁ : ZeroRefines g₁ g₂)
    (h₂ : ZeroRefines g₂ g₃) : ZeroRefines g₁ g₃ := by
  intro y x
  rcases h₂ y x with h | h
  · rw [h]; exact h₁ y x
  · exact Or.inr h

theorem zeroRefines_setCell_zero (g : Grid) (y x : ℕ) :
    ZeroRefines g (setCell g y x 0) :=
  fun y' x' => getCell_setCell_cases g y x 0 y' x'

theorem ZeroRefines.keeps_zero {g g' : Grid} (h : ZeroRefines g g') {y x : ℕ}
    (hz : getCell g y x = 0) : getCell g' y x = 0 := by
  rcases h y x with he | he
  · rw [he, hz]
  · exact he

theorem ringPreserved_refl (g : Grid) : RingPreserved g g :=
  fun _ _ _ => rfl

theorem ringPreserved_trans {g₁ g₂ g₃ : Grid} (h₁ : RingPreserved g₁ g₂)
    (h₂ : RingPreserved g₂ g₃) : RingPreserved g₁ g₃ :=
  fun y x hr => (h₂ y x hr).trans (h₁ y x hr)

theorem ringPreserved_setCell {g : Grid} {y x : ℕ} (v : ℕ) (hx : x ≠ 0)
    (hy : y ≠ 0) : RingPreserved g (setCell g y x v) := by
  intro y' x' hr
  exact getCell_setCell_ne g y x v y' x' (by omega)

theorem carveDirLoop_zeroRefines (w h : ℕ)
    (recur : ℤ → ℤ → Grid → ℕ → Grid × ℕ)
    (hrec : ∀ cx cy g k, ZeroRefines g (recur cx cy g k).1) (cx cy : ℤ) :
    ∀ (dirs : List (ℤ × ℤ)) (g : Grid) (k : ℕ),
      ZeroRefines g (carveDirLoop w h recur cx cy dirs g k).1
  | [], g, k => zeroRefines_refl g
  | dir :: rest, g, k => by
    unfold carveDirLoop
    dsimp only
    split
    · exact zeroRefines_trans
        (zeroRefines_trans
          (zeroRefines_trans (zeroRefines_setCell_zero _ _ _)
            (zeroRefines_setCell_zero _ _ _))
          (hrec _ _ _ _))
        (carveDirLoop_zeroRefines w h recur hrec cx cy rest _ _)
    · exact carveDirLoop_zeroRefines w h recur hrec cx cy rest g k

theorem carvePassagesFrom_zeroRefines (w h : ℕ) (rnd : ℕ → ℕ) :
    ∀ (fuel : ℕ) (cx cy : ℤ) (g : Grid) (k : ℕ),
      ZeroRefines g (carvePassagesFrom w h rnd fuel cx cy g k).1
  | 0, _, _, g, _ => zeroRefines_refl g
  | fuel + 1, cx, cy, g, k => by
    unfold carvePassagesFrom
    exact carveDirLoop_zeroRefines w h _
      (fun cx' cy' g' k' => carvePassagesFrom_zeroRefines w h rnd fuel cx' cy' g' k')
      cx cy _ g _

theorem carveDirLoop_dims (w h : ℕ)
    (recur : ℤ → ℤ → Grid → ℕ → Grid × ℕ)
    (hrec : ∀ cx cy g k, GridDims g w h → GridDims (recur cx cy g k).1 w h)
    (cx cy : ℤ) :
    ∀ (dirs : List (ℤ × ℤ)) (g : Grid) (k : ℕ), GridDims g w h →
      GridDims (carveDirLoop w h recur cx cy dirs g k).1 w h
  | [], _, _, hd => hd
  | dir :: rest, g, k, hd => by
    unfold carveDirLoop
    dsimp only
    split
    · exact carveDirLoop_dims w h recur hrec cx cy rest _ _
        (hrec _ _ _ _ (gridDims_setCell _ _ _ _ _ _ (gridDims_setCell _ _ _ _ _ _ hd)))
    · exact carveDirLoop_dims w h recur hrec cx cy rest g k hd

theorem carvePassagesFrom_dims (w h : ℕ) (rnd : ℕ → ℕ) :
    ∀ (fuel : ℕ) (cx cy : ℤ) (g : Grid) (k : ℕ), GridDims g w h →
      GridDims (carvePassagesFrom w h rnd fuel cx cy g k).1 w h
  | 0, _, _, _, _, hd => hd
  | fuel + 1, cx, cy, g, k, hd => by
    unfold carvePassagesFrom
    exact carveDirLoop_dims w h _
      (fun cx' cy' g' k' => carvePassagesFrom_dims w h rnd fuel cx' cy' g' k')
      cx cy _ g _ hd

theorem listSwap_subset {α : Type} (l : List α) (i j : ℕ) :
    ∀ a ∈ listSwap l i j, a ∈ l := by
  intro a ha
  unfold listSwap at ha
  split at ha
  case h_1 b c hb hc =>
    rcases List.mem_or_eq_of_mem_set ha with ha' | rfl
    · rcases List.mem_or_eq_of_mem_set ha' with ha'' | rfl
      · exact ha''
      · exact List.get?_mem hc
    · exact List.get?_mem hb
  case h_2 => exact ha

theorem fyGo_subset {α : Type} (rnd : ℕ → ℕ) :
    ∀ (n : ℕ) (l : List α) (k : ℕ), ∀ a ∈ (fyGo rnd l k n).1, a ∈ l
  | 0, _, _, _, ha => ha
  | n + 1, l, k, a, ha => by
    unfold fyGo at ha
    exact listSwap_subset _ _ _ _ (fyGo_subset rnd n _ _ _ ha)

theorem shuffleDirs_subset (rnd : ℕ → ℕ) (l : List (ℤ × ℤ)) (k : ℕ) :
    ∀ d ∈ (shuffleDirs rnd l k).1, d ∈ l :=
  fun d hd => fyGo_subset rnd (l.length - 1) l k d hd

theorem carveDirLoop_ring (w h : ℕ)
    (recur : ℤ → ℤ → Grid → ℕ → Grid × ℕ)
    (hrec : ∀ cx cy g k, 0 < cx → 0 < cy →
      RingPreserved g (recur cx cy g k).1)
    (cx cy : ℤ) (hcx : 0 < cx) (hcy : 0 < cy) :
    ∀ (dirs : List (ℤ × ℤ)), (∀ d ∈ dirs, d ∈ carveDirections) →
      ∀ (g : Grid) (k : ℕ),
      RingPreserved g (carveDirLoop w h recur cx cy dirs g k).1
  | [], _, g, _ => ringPreserved_refl g
  | dir :: rest, hdirs, g, k => by
    have hdir : dir ∈ carveDirections := hdirs dir (by simp)
    have hrest : ∀ d ∈ rest, d ∈ carveDirections :=
      fun d hd => hdirs d (by simp [hd])
    unfold carveDirLoop
    dsimp only
    split
    case isTrue hguard =>
      obtain ⟨hnx, hnxw, hny, hnyh, _⟩ := hguard
      have hmid : 0 < (cx + dir.1 / 2) ∧ 0 < (cy + dir.2 / 2) := by
        simp only [carveDirections, List.mem_cons, List.not_mem_nil,
          or_false] at hdir
        rcases hdir with rfl | rfl | rfl | rfl <;>
          constructor <;> dsimp only at * <;> omega
      refine ringPreserved_trans (ringPreserved_trans (ringPreserved_trans
        (ringPreserved_setCell 0 ?_ ?_) (ringPreserved_setCell 0 ?_ ?_))
        (hrec _ _ _ _ hnx hny))
        (carveDirLoop_ring w h recur hrec cx cy hcx hcy rest hrest _ _)
      · omega
      · omega
      · omega
      · omega
    case isFalse =>
      exact carveDirLoop_ring w h recur hrec cx cy hcx hcy rest hrest g k

theorem carvePassagesFrom_ring (w h : ℕ) (rnd : ℕ → ℕ) :
    ∀ (fuel : ℕ) (cx cy : ℤ), 0 < cx → 0 < cy → ∀ (g : Grid) (k : ℕ),
      RingPreserved g (carvePassagesFrom w h rnd fuel cx cy g k).1
  | 0, _, _, _, _, g, _ => ringPreserved_refl g
  | fuel + 1, cx, cy, hcx, hcy, g, k => by
    unfold carvePassagesFrom
    exact carveDirLoop_ring w h _
      (fun cx' cy' g' k' hx' hy' =>
        carvePassagesFrom_ring w h rnd fuel cx' cy' hx' hy' g' k')
      cx cy hcx hcy _ (shuffleDirs_subset rnd carveDirections _) g _

theorem stepToward_manhattan_succ (cur ex : Position)
    (h : ¬(cur.x = ex.x ∧ cur.y = ex.y)) :
    manhattan (stepToward cur ex) ex + 1 = manhattan cur ex := by
  unfold stepToward manhattan
  split_ifs <;> simp <;> omega

theorem stepToward_adj (cur ex : Position)
    (h : ¬(cur.x = ex.x ∧ cur.y = ex.y)) :
    AdjPos cur (stepToward cur ex) := by
  unfold stepToward AdjPos
  split_ifs <;> simp <;> omega

theorem stepToward_lt (cur ex : Position) (w h : ℕ) (h1 : cur.x < w)
    (h2 : ex.x < w) (h3 : cur.y < h) (h4 : ex.y < h) :
    (stepToward cur ex).x < w ∧ (stepToward cur ex).y < h := by
  unfold stepToward
  split_ifs <;> refine ⟨?_, ?_⟩ <;> (try simp) <;> omega

theorem carvePathLoopGo_zeroRefines (ex : Position) :
    ∀ (fuel : ℕ) (g : Grid) (cur : Position),
      ZeroRefines g (carvePathLoopGo ex fuel g cur)
  | 0, g, _ => zeroRefines_refl g
  | fuel + 1, g, cur => by
    unfold carvePathLoopGo
    split
    · exact zeroRefines_refl g
    · exact zeroRefines_trans
        (zeroRefines_trans (zeroRefines_setCell_zero _ _ _)
          (zeroRefines_setCell_zero _ _ _))
        (carvePathLoopGo_zeroRefines ex fuel _ _)

theorem carvePathLoopGo_dims (ex : Position) (w h : ℕ) :
    ∀ (fuel : ℕ) (g : Grid) (cur : Position), GridDims g w h →
      GridDims (carvePathLoopGo ex fuel g cur) w h
  | 0, _, _, hd => hd
  | fuel + 1, g, cur, hd => by
    unfold carvePathLoopGo
    split
    · exact hd
    · exact carvePathLoopGo_dims ex w h fuel _ _
        (gridDims_setCell _ _ _ _ _ _ (gridDims_setCell _ _ _ _ _ _ hd))

theorem carvePathIterations_eq (ex : Position) :
    ∀ (fuel : ℕ) (cur : Position), manhattan cur ex < fuel →
      carvePathIterations ex fuel cur = manhattan cur ex
  | 0, _, hf => absurd hf (by omega)
  | fuel + 1, cur, hf => by
    unfold carvePathIterations
    split
    case isTrue heq =>
      unfold manhattan
      omega
    case isFalse hne =>
      have hsucc := stepToward_manhattan_succ cur ex hne
      rw [carvePathIterations_eq ex fuel (stepToward cur ex) (by omega)]
      omega

theorem carvePathVisited_head (ex : Position) :
    ∀ (fuel : ℕ) (cur : Position), 0 < fuel →
      (carvePathVisited ex fuel cur).head? = some cur
  | 0, _, hf => absurd hf (by omega)
  | fuel + 1, cur, _ => by
    unfold carvePathVisited
    split
    case isTrue heq =>
      have : cur = ex := by
        obtain ⟨h1, h2⟩ := heq
        cases cur; cases ex; simp_all
      simp [this]
    case isFalse hne => simp

theorem carvePathVisited_last (ex : Position) :
    ∀ (fuel : ℕ) (cur : Position), manhattan cur ex < fuel →
      (carvePathVisited ex fuel cur).getLast? = some ex
  | 0, _, hf => absurd hf (by omega)
  | fuel + 1, cur, hf => by
    unfold carvePathVisited
    split
    case isTrue heq => simp
    case isFalse hne =>
      have hsucc := stepToward_manhattan_succ cur ex hne
      have ih := carvePathVisited_last ex fuel (stepToward cur ex) (by omega)
      rcases hlv : carvePathVisited ex fuel (stepToward cur ex) with _ | ⟨a, l⟩
      · rw [hlv] at ih
        simp at ih
      · rw [hlv] at ih
        rw [List.getLast?_cons_cons]
        exact ih

theorem carvePathVisited_chain (ex : Position) :
    ∀ (fuel : ℕ) (cur : Position), manhattan cur ex < fuel →
      List.Chain' AdjPos (carvePathVisited ex fuel cur)
  | 0, _, _ => by
    unfold carvePathVisited
    simp
  | fuel + 1, cur, hf => by
    unfold carvePathVisited
    split
    case isTrue heq => simp
    case isFalse hne =>
      have hsucc := stepToward_manhattan_succ cur ex hne
      rw [List.chain'_cons']
      refine ⟨?_, carvePathVisited_chain ex fuel (stepToward cur ex) (by omega)⟩
      intro b hb
      rw [carvePathVisited_head ex fuel (stepToward cur ex) (by omega)] at hb
      cases hb
      exact stepToward_adj cur ex hne

theorem carvePathVisited_bounds (ex : Position) (w h : ℕ)
    (hex : ex.x < w) (hey : ex.y < h) :
    ∀ (fuel : ℕ) (cur : Position), cur.x < w → cur.y < h →
      ∀ p ∈ carvePathVisited ex fuel cur, p.x < w ∧ p.y < h
  | 0, _, _, _ => by
    unfold carvePathVisited
    simp
  | fuel + 1, cur, hcx, hcy => by
    unfold carvePathVisited
    split
    case isTrue heq =>
      intro p hp
      simp only [List.mem_singleton] at hp
      subst hp
      exact ⟨hex, hey⟩
    case isFalse hne =>
      intro p hp
      simp only [List.mem_cons] at hp
      rcases hp with rfl | hp
      · exact ⟨hcx, hcy⟩
      · obtain ⟨hnx, hny⟩ := stepToward_lt cur ex w h hcx hex hcy hey
        exact carvePathVisited_bounds ex w h hex hey fuel
          (stepToward cur ex) hnx hny p hp

theorem carvePathLoopGo_marks (ex : Position) (w h : ℕ)
    (hex : ex.x < w) (hey : ex.y < h) :
    ∀ (fuel : ℕ) (g : Grid) (cur : Position), manhattan cur ex < fuel →
      GridDims g w h → cur.x < w → cur.y < h →
      ∀ p ∈ carvePathVisited ex fuel cur,
        getCell (setCell (carvePathLoopGo ex fuel g cur) ex.y ex.x 0) p.y p.x = 0
  | 0, _, _, hf, _, _, _ => absurd hf (by omega)
  | fuel + 1, g, cur, hf, hd, hcx, hcy => by
    unfold carvePathLoopGo carvePathVisited
    by_cases hc : cur.x = ex.x ∧ cur.y = ex.y
    · simp only [if_pos hc]
      intro p hp
      simp only [List.mem_singleton] at hp
      rw [hp]
      exact getCell_setCell_self g w h ex.y ex.x 0 hd hey hex
    · simp only [if_neg hc]
      intro p hp
      simp only [List.mem_cons] at hp
      have hg1d := gridDims_setCell g w h cur.y cur.x 0 hd
      have hg2d := gridDims_setCell _ w h (stepToward cur ex).y
        (stepToward cur ex).x 0 hg1d
      obtain ⟨hnx, hny⟩ := stepToward_lt cur ex w h hcx hex hcy hey
      rcases hp with hpc | hp
      · rw [hpc]
        have h1 : getCell (setCell g cur.y cur.x 0) cur.y cur.x = 0 :=
          getCell_setCell_self g w h cur.y cur.x 0 hd hcy hcx
        have h2 : getCell (setCell (setCell g cur.y cur.x 0)
            (stepToward cur ex).y (stepToward cur ex).x 0) cur.y cur.x = 0 := by
          rcases getCell_setCell_cases (setCell g cur.y cur.x 0)
            (stepToward cur ex).y (stepToward cur ex).x 0 cur.y cur.x with he | he
          · rw [he]; exact h1
          · exact he
        have h3 := (carvePathLoopGo_zeroRefines ex fuel _
          (stepToward cur ex)).keeps_zero h2
        rcases getCell_setCell_cases (carvePathLoopGo ex fuel _
          (stepToward cur ex)) ex.y ex.x 0 cur.y cur.x with he | he
        · rw [he]; exact h3
        · exact he
      · have hsucc := stepToward_manhattan_succ cur ex hc
        exact carvePathLoopGo_marks ex w h hex hey fuel _ (stepToward cur ex)
          (by omega) hg2d hnx hny p hp

theorem carvePath_marks (g : Grid) (w h : ℕ) (start ex : Position)
    (hd : GridDims g w h) (hsx : start.x < w) (hsy : start.y < h)
    (hex : ex.x < w) (hey : ex.y < h) :
    ∀ p ∈ carvePathVisited ex (manhattan start ex + 1) start,
      getCell (carvePath g start ex) p.y p.x = 0 := by
  intro p hp
  unfold carvePath carvePathLoop
  exact carvePathLoopGo_marks ex w h hex hey (manhattan start ex + 1) g start
    (by omega) hd hsx hsy p hp

theorem carvePath_dims (g : Grid) (w h : ℕ) (start ex : Position)
    (hd : GridDims g w h) : GridDims (carvePath g start ex) w h :=
  gridDims_setCell _ w h ex.y ex.x 0
    (carvePathLoopGo_dims ex w h (manhattan start ex + 1) g start hd)

theorem carvePath_zeroRefines (g : Grid) (start ex : Position) :
    ZeroRefines g (carvePath g start ex) :=
  zeroRefines_trans
    (carvePathLoopGo_zeroRefines ex (manhattan start ex + 1) g start)
    (zeroRefines_setCell_zero _ ex.y ex.x)

theorem bfsExpand_reach (g : Grid) (w h : ℕ) (start current : Position)
    (hcur : ReachZero g w h start current) :
    ∀ (dirs : List (ℤ × ℤ)), (∀ d ∈ dirs, d ∈ bfsDirections) →
    ∀ (queue : List Position) (visited : List (List Bool)),
      (∀ p ∈ queue, ReachZero g w h start p) →
      ∀ p ∈ (bfsExpand g w h current dirs queue visited).1,
        ReachZero g w h start p
  | [], _, _, _, hq => hq
  | dir :: rest, hdirs, queue, visited, hq => by
    have hrest : ∀ d ∈ rest, d ∈ bfsDirections :=
      fun d hd => hdirs d (by simp [hd])
    unfold bfsExpand
    dsimp only
    split
    case isTrue hguard =>
      obtain ⟨h0x, hxw, h0y, hyh, _, hcell⟩ := hguard
      refine bfsExpand_reach g w h start current hcur rest hrest _ _ ?_
      intro p hp
      rcases List.mem_append.mp hp with hp | hp
      · exact hq p hp
      · simp only [List.mem_singleton] at hp
        rw [hp]
        refine ReachZero.step hcur ?_ (by dsimp only; omega)
          (by dsimp only; omega) hcell
        have hd : dir ∈ bfsDirections := hdirs dir (by simp)
        simp only [bfsDirections, List.mem_cons, List.not_mem_nil,
          or_false] at hd
        unfold AdjPos
        rcases hd with rfl | rfl | rfl | rfl <;> dsimp only at * <;> omega
    case isFalse =>
      exact bfsExpand_reach g w h start current hcur rest hrest queue visited hq

theorem bfsLoop_sound (g : Grid) (w h : ℕ) (start ex : Position) :
    ∀ (fuel : ℕ) (queue : List Position) (visited : List (List Bool)),
      (∀ p ∈ queue, ReachZero g w h start p) →
      bfsLoop g w h ex fuel queue visited = true →
      ReachZero g w h start ex
  | 0, _, _, _, hres => by simp [bfsLoop] at hres
  | fuel + 1, [], _, _, hres => by simp [bfsLoop] at hres
  | fuel + 1, current :: rest, visited, hq, hres => by
    unfold bfsLoop at hres
    dsimp only at hres
    split at hres
    case isTrue heq =>
      have hce : current = ex := by
        obtain ⟨h1, h2⟩ := heq
        cases current; cases ex; simp_all
      rw [← hce]
      exact hq current (by simp)
    case isFalse hne =>
      refine bfsLoop_sound g w h start ex fuel _ _ ?_ hres
      exact bfsExpand_reach g w h start current (hq current (by simp))
        bfsDirections (fun d hd => hd) rest visited
        (fun p hp => hq p (by simp [hp]))

theorem reachZero_path (g : Grid) (w h : ℕ) (start : Position)
    (hs0 : getCell g start.y start.x = 0) (hsx : start.x < w)
    (hsy : start.y < h) {p : Position} (hp : ReachZero g w h start p) :
    ∃ ps : List Position, ps.head? = some start ∧ ps.getLast? = some p ∧
      List.Chain' AdjPos ps ∧
      ∀ q ∈ ps, q.x < w ∧ q.y < h ∧ getCell g q.y q.x = 0 := by
  induction hp with
  | refl =>
    exact ⟨[start], by simp, by simp, List.chain'_singleton start,
      by simp [hs0, hsx, hsy]⟩
  | @step p' q hr hadj hqx hqy hq0 ih =>
    obtain ⟨ps, hhead, hlast, hchain, hall⟩ := ih
    refine ⟨ps ++ [q], ?_, List.getLast?_concat ps, ?_, ?_⟩
    · rw [List.head?_append, hhead]
      rfl
    · rw [List.chain'_append]
      refine ⟨hchain, List.chain'_singleton q, ?_⟩
      intro a ha b hb
      rw [hlast] at ha
      simp only [List.head?_cons, Option.mem_def, Option.some.injEq] at ha hb
      rw [← ha, ← hb]
      exact hadj
    · intro q' hq'
      rcases List.mem_append.mp hq' with hq' | hq'
      · exact hall q' hq'
      · simp only [List.mem_singleton] at hq'
        rw [hq']
        exact ⟨hqx, hqy, hq0⟩

theorem isWall_eq_false (m : MazeData) (p : Position) (hx : p.x < m.width)
    (hy : p.y < m.height) (h0 : getCell m.grid p.y p.x = 0) :
    isWall m (p.x : ℤ) (p.y : ℤ) = false := by
  unfold isWall
  rw [if_neg (by omega)]
  simp [Int.toNat_natCast, h0]

theorem ceilHalf_pos (n : ℕ) (hn : 1 ≤ n) : 0 < ceilHalf n := by
  unfold ceilHalf
  omega

theorem ceilHalf_le (n : ℕ) : ceilHalf n ≤ n ∨ n = 0 := by
  unfold ceilHalf
  omega

theorem startPositionOf_bounds (w h : ℕ) (rnd : ℕ → ℕ) (hw : 1 ≤ w)
    (hh : 1 ≤ h) :
    (startPositionOf w h rnd).x < ceilHalf w ∧
    (startPositionOf w h rnd).y < ceilHalf h := by
  unfold startPositionOf
  exact ⟨Nat.mod_lt _ (ceilHalf_pos w hw), Nat.mod_lt _ (ceilHalf_pos h hh)⟩

theorem exitPositionOf_bounds (w h : ℕ) (rnd : ℕ → ℕ) (hw : 1 ≤ w)
    (hh : 1 ≤ h) :
    w / 2 ≤ (exitPositionOf w h rnd).x ∧ (exitPositionOf w h rnd).x < w ∧
    h / 2 ≤ (exitPositionOf w h rnd).y ∧ (exitPositionOf w h rnd).y < h := by
  unfold exitPositionOf
  have hx := Nat.mod_lt (rnd 2) (ceilHalf_pos w hw)
  have hy := Nat.mod_lt (rnd 3) (ceilHalf_pos h hh)
  unfold ceilHalf at *
  dsimp only
  split_ifs <;> omega

theorem ensurePathToExit_connected (g2 : Grid) (w h : ℕ) (start ex : Position)
    (hd2 : GridDims g2 w h) (hsx : start.x < w) (hsy : start.y < h)
    (hex : ex.x < w) (hey : ex.y < h)
    (hstart2 : getCell g2 start.y start.x = 0) :
    ∃ ps : List Position, ps.head? = some start ∧ ps.getLast? = some ex ∧
      List.Chain' AdjPos ps ∧
      ∀ q ∈ ps, q.x < w ∧ q.y < h ∧
        getCell (ensurePathToExit g2 w h start ex) q.y q.x = 0 := by
  unfold ensurePathToExit
  dsimp only
  by_cases hbfs : bfsLoop g2 w h ex (w * h + 1) [start]
      (setVisited (initialVisited w h) start.y start.x) = true
  · rw [if_pos hbfs]
    have hreach : ReachZero g2 w h start ex :=
      bfsLoop_sound g2 w h start ex _ _ _
        (fun p hp => by
          simp only [List.mem_singleton] at hp
          rw [hp]
          exact ReachZero.refl) hbfs
    exact reachZero_path g2 w h start hstart2 hsx hsy hreach
  · rw [if_neg hbfs]
    refine ⟨carvePathVisited ex (manhattan start ex + 1) start,
      carvePathVisited_head ex _ start (by omega),
      carvePathVisited_last ex _ start (by omega),
      carvePathVisited_chain ex _ start (by omega), ?_⟩
    intro q hq
    obtain ⟨hqx, hqy⟩ := carvePathVisited_bounds ex w h hex hey _ start hsx hsy q hq
    exact ⟨hqx, hqy, carvePath_marks g2 w h start ex hd2 hsx hsy hex hey q hq⟩

theorem generateMazeGrid_connected (w h : ℕ) (rnd : ℕ → ℕ)
    (start ex : Position) (hsx : start.x < w) (hsy : start.y < h)
    (hex : ex.x < w) (hey : ex.y < h) :
    ∃ ps : List Position, ps.head? = some start ∧ ps.getLast? = some ex ∧
      List.Chain' AdjPos ps ∧
      ∀ q ∈ ps, q.x < w ∧ q.y < h ∧
        getCell (generateMazeGrid w h rnd start ex) q.y q.x = 0 := by
  have hd1 : GridDims (setCell (initialGrid w h) start.y start.x 0) w h :=
    gridDims_setCell _ _ _ _ _ _ (gridDims_initialGrid w h)
  have hdr : GridDims
      (carvePassagesFrom w h rnd (w * h + 1) (start.x : ℤ) (start.y : ℤ)
        (setCell (initialGrid w h) start.y start.x 0) 4).1 w h :=
    carvePassagesFrom_dims w h rnd _ _ _ _ 4 hd1
  have hd2 : GridDims (setCell
      (carvePassagesFrom w h rnd (w * h + 1) (start.x : ℤ) (start.y : ℤ)
        (setCell (initialGrid w h) start.y start.x 0) 4).1 ex.y ex.x 0) w h :=
    gridDims_setCell _ _ _ _ _ _ hdr
  have hstart1 : getCell (setCell (initialGrid w h) start.y start.x 0)
      start.y start.x = 0 :=
    getCell_setCell_self _ w h _ _ _ (gridDims_initialGrid w h) hsy hsx
  have hstartr := (carvePassagesFrom_zeroRefines w h rnd (w * h + 1)
    (start.x : ℤ) (start.y : ℤ) (setCell (initialGrid w h) start.y start.x 0)
    4).keeps_zero hstart1
  have hstart2 := (zeroRefines_setCell_zero
    (carvePassagesFrom w h rnd (w * h + 1) (start.x : ℤ) (start.y : ℤ)
      (setCell (initialGrid w h) start.y start.x 0) 4).1 ex.y ex.x).keeps_zero
    hstartr
  unfold generateMazeGrid
  dsimp only
  exact ensurePathToExit_connected _ w h start ex hd2 hsx hsy hex hey hstart2

/-- Claim C1: for every `width ≥ 2`, `height ≥ 2` and every sequence of
random draws, the grid constructed by the maze generator (recursive
stride-2 carve from `startPosition`, forcing `exitPosition` open, then BFS
reachability check followed by greedy repair carving when unreachable)
contains a 4-connected (N/E/S/W) path of non-wall cells from
`startPosition` to `exitPosition`. -/
theorem randomMaze_connected (w h : ℕ) (rnd : ℕ → ℕ) (hw : 2 ≤ w)
    (hh : 2 ≤ h) :
    ∃ ps : List Position, ConnectedPath (randomMazeData w h rnd) ps := by
  obtain ⟨hsx', hsy'⟩ := startPositionOf_bounds w h rnd (by omega) (by omega)
  obtain ⟨_, hexx, _, hexy⟩ := exitPositionOf_bounds w h rnd (by omega) (by omega)
  have hcw := ceilHalf_le w
  have hch := ceilHalf_le h
  have hsx : (startPositionOf w h rnd).x < w := by omega
  have hsy : (startPositionOf w h rnd).y < h := by omega
  obtain ⟨ps, hhead, hlast, hchain, hall⟩ :=
    generateMazeGrid_connected w h rnd (startPositionOf w h rnd)
      (exitPositionOf w h rnd) hsx hsy hexx hexy
  refine ⟨ps, hhead, hlast, hchain, ?_⟩
  intro p hp
  obtain ⟨hpx, hpy, hp0⟩ := hall p hp
  exact isWall_eq_false (randomMazeData w h rnd) p hpx hpy hp0

/-- Witness for C1 at the concrete input `w = h = 5`,
`rnd k = 7k + 3`. -/
theorem randomMaze_connected_witness :
    ∃ ps : List Position,
      ConnectedPath (randomMazeData 5 5 (fun k => k * 7 + 3)) ps :=
  randomMaze_connected 5 5 (fun k => k * 7 + 3) (by omega) (by omega)

/-- Claim C2: for the movement controller in the Idle state (not moving)
over a fixed maze, `move(d)` from position `p` returns success if and only
if `isWall(p + unit(d))` is false (unit: UP `y-1`, DOWN `y+1`, LEFT `x-1`,
RIGHT `x+1`, the `dirOffset` map); on success the logical grid position
immediately (synchronously) equals `p + unit(d)` exactly, and on failure
(wall, including out-of-bounds) the grid position is unchanged and the
blocked signal carries the requested direction. -/
theorem move_idle_spec (m : MazeData) (st : MCState) (d : Direction)
    (hidle : st.isMovingFlag = false) :
    ((MovementController.move (isWall m) st d).result = true ↔
      isWall m (st.gridX + (dirOffset d).1) (st.gridY + (dirOffset d).2)
        = false) ∧
    ((MovementController.move (isWall m) st d).result = true →
      (MovementController.move (isWall m) st d).state =
        ⟨st.gridX + (dirOffset d).1, st.gridY + (dirOffset d).2, true⟩) ∧
    ((MovementController.move (isWall m) st d).result = false →
      (MovementController.move (isWall m) st d).state = st ∧
      (MovementController.move (isWall m) st d).blocked = some d) := by
  unfold MovementController.move
  rw [hidle]
  cases hq : isWall m (st.gridX + (dirOffset d).1)
      (st.gridY + (dirOffset d).2) <;>
    simp [hq]

/-- Witness for C2 at the fixed maze, state `(1,1)` idle, direction DOWN
(the cell below, `(1,2)`, is a path cell of the fixed grid). -/
theorem move_idle_spec_witness :
    ((MovementController.move (isWall fixedMazeData) ⟨1, 1, false⟩
        Direction.down).result = true ↔
      isWall fixedMazeData (1 + (dirOffset Direction.down).1)
        (1 + (dirOffset Direction.down).2) = false) ∧
    ((MovementController.move (isWall fixedMazeData) ⟨1, 1, false⟩
        Direction.down).result = true →
      (MovementController.move (isWall fixedMazeData) ⟨1, 1, false⟩
        Direction.down).state =
        ⟨1 + (dirOffset Direction.down).1, 1 + (dirOffset Direction.down).2,
          true⟩) ∧
    ((MovementController.move (isWall fixedMazeData) ⟨1, 1, false⟩
        Direction.down).result = false →
      (MovementController.move (isWall fixedMazeData) ⟨1, 1, false⟩
        Direction.down).state = ⟨1, 1, false⟩ ∧
      (MovementController.move (isWall fixedMazeData) ⟨1, 1, false⟩
        Direction.down).blocked = some Direction.down) :=
  move_idle_spec fixedMazeData ⟨1, 1, false⟩ Direction.down rfl

/-- Claim C4: whenever the movement state is Moving (a move's animation is
in flight), any call to `move` returns rejection (`false`) and changes
nothing: the outcome is exactly the unchanged state with no callbacks and
no scheduled tween. -/
theorem move_while_moving_rejected (q : ℤ → ℤ → Bool) (st : MCState)
    (d : Direction) (hmov : st.isMovingFlag = true) :
    MovementController.move q st d = ⟨false, st, none, none, none⟩ := by
  unfold MovementController.move
  rw [hmov]
  simp

/-- Witness for C4 at the fixed maze with a Moving state. -/
theorem move_while_moving_rejected_witness :
    MovementController.move (isWall fixedMazeData) ⟨1, 1, true⟩
      Direction.down = ⟨false, ⟨1, 1, true⟩, none, none, none⟩ :=
  move_while_moving_rejected (isWall fixedMazeData) ⟨1, 1, true⟩
    Direction.down rfl

/-- Claim C5: `isWall(x, y)` (the shared method body of both providers)
returns `true` for every coordinate pair with `x < 0`, `x ≥ width`,
`y < 0` or `y ≥ height` (closed-world boundary), and for in-bounds
coordinates it returns `true` exactly when the grid cell holds a wall
(`grid[y][x] = 1`). -/
theorem isWall_boundary_spec (m : MazeData) (x y : ℤ) :
    ((x < 0 ∨ (m.width : ℤ) ≤ x ∨ y < 0 ∨ (m.height : ℤ) ≤ y) →
      isWall m x y = true) ∧
    (0 ≤ x → x < (m.width : ℤ) → 0 ≤ y → y < (m.height : ℤ) →
      (isWall m x y = true ↔ getCell m.grid y.toNat x.toNat = 1)) := by
  unfold isWall
  constructor
  · intro hoob
    rw [if_pos (by omega)]
  · intro h1 h2 h3 h4
    rw [if_neg (by omega)]
    simp

/-- Witness for C5: the fixed maze at the out-of-bounds coordinate
`(-1, 0)` and the in-bounds wall coordinate `(8, 8)`. -/
theorem isWall_boundary_spec_witness :
    isWall fixedMazeData (-1) 0 = true ∧
    (isWall fixedMazeData 8 8 = true ↔ getCell fixedMazeData.grid 8 8 = 1) := by
  refine ⟨(isWall_boundary_spec fixedMazeData (-1) 0).1 (by omega), ?_⟩
  have h := (isWall_boundary_spec fixedMazeData 8 8).2 (by omega)
    (by decide) (by omega) (by decide)
  simpa using h

/-- Claim C3 (code bug in the fixed fixture): the `FixedMazeProvider`'s
hand-authored grid has a wall at its own `startPosition` `(8,8)`
(`grid[8][8] = 1`), so `isWall(startPosition)` is `true`, contradicting
the path-cell invariant; its exit `(14,15)` is a path cell as required. -/
theorem fixedMaze_start_is_wall :
    isWall fixedMazeData (fixedMazeData.startPosition.x : ℤ)
      (fixedMazeData.startPosition.y : ℤ) = true ∧
    isWall fixedMazeData (fixedMazeData.exitPosition.x : ℤ)
      (fixedMazeData.exitPosition.y : ℤ) = false := by
  decide

/-- Claim C9 (code bug): the tween scheduled by a committed move always
lasts the hardcoded `150`, regardless of the `duration` argument of
`Character.move`; in particular the auto-move call that requests `75`
(`MainGameScene.update`) still schedules a `150` tween — the `duration`
argument is dropped because `MovementController.move` declares no such
parameter. -/
theorem automove_duration_ignored :
    (autoMoveCall (isWall fixedMazeData) ⟨1, 1, false⟩ Direction.down).result
      = true ∧
    (autoMoveCall (isWall fixedMazeData) ⟨1, 1, false⟩
        Direction.down).tweenDuration = some 150 ∧
    ∀ dur : ℕ,
      Character.move (isWall fixedMazeData) ⟨1, 1, false⟩ Direction.down dur =
        autoMoveCall (isWall fixedMazeData) ⟨1, 1, false⟩ Direction.down :=
  ⟨by decide, by decide, fun _ => rfl⟩

theorem randomMazeData_start (w h : ℕ) (rnd : ℕ → ℕ) :
    (randomMazeData w h rnd).startPosition = startPositionOf w h rnd := rfl

theorem randomMazeData_exit (w h : ℕ) (rnd : ℕ → ℕ) :
    (randomMazeData w h rnd).exitPosition = exitPositionOf w h rnd := rfl

theorem randomMazeData_grid (w h : ℕ) (rnd : ℕ → ℕ) :
    (randomMazeData w h rnd).grid =
      generateMazeGrid w h rnd (startPositionOf w h rnd)
        (exitPositionOf w h rnd) := rfl

/-- Claim C6: for every maze generated with `W ≥ 2`, `H ≥ 2` and any
random draws: `start.x < ⌈W/2⌉`, `start.y < ⌈H/2⌉`, `exit.x ≥ ⌊W/2⌋`,
`exit.y ≥ ⌊H/2⌋`, and both positions lie inside `[0,W) × [0,H)` (the `x`
and `y` fields are naturals, so the lower bound `0 ≤ ·` is inherent). -/
theorem quadrant_placement (w h : ℕ) (rnd : ℕ → ℕ) (hw : 2 ≤ w)
    (hh : 2 ≤ h) :
    (randomMazeData w h rnd).startPosition.x < (w + 1) / 2 ∧
    (randomMazeData w h rnd).startPosition.y < (h + 1) / 2 ∧
    w / 2 ≤ (randomMazeData w h rnd).exitPosition.x ∧
    h / 2 ≤ (randomMazeData w h rnd).exitPosition.y ∧
    (randomMazeData w h rnd).startPosition.x < w ∧
    (randomMazeData w h rnd).startPosition.y < h ∧
    (randomMazeData w h rnd).exitPosition.x < w ∧
    (randomMazeData w h rnd).exitPosition.y < h := by
  have h1 := startPositionOf_bounds w h rnd (by omega) (by omega)
  have h2 := exitPositionOf_bounds w h rnd (by omega) (by omega)
  have h3 := ceilHalf_le w
  have h4 := ceilHalf_le h
  rw [randomMazeData_start, randomMazeData_exit]
  unfold ceilHalf at h1 h3 h4
  refine ⟨by omega, by omega, by omega, by omega, by omega, by omega,
    by omega, by omega⟩

/-- Witness for C6 at `w = h = 5`, `rnd k = 7k + 3`. -/
theorem quadrant_placement_witness :
    (randomMazeData 5 5 (fun k => k * 7 + 3)).startPosition.x < (5 + 1) / 2 ∧
    (randomMazeData 5 5 (fun k => k * 7 + 3)).startPosition.y < (5 + 1) / 2 ∧
    5 / 2 ≤ (randomMazeData 5 5 (fun k => k * 7 + 3)).exitPosition.x ∧
    5 / 2 ≤ (randomMazeData 5 5 (fun k => k * 7 + 3)).exitPosition.y ∧
    (randomMazeData 5 5 (fun k => k * 7 + 3)).startPosition.x < 5 ∧
    (randomMazeData 5 5 (fun k => k * 7 + 3)).startPosition.y < 5 ∧
    (randomMazeData 5 5 (fun k => k * 7 + 3)).exitPosition.x < 5 ∧
    (randomMazeData 5 5 (fun k => k * 7 + 3)).exitPosition.y < 5 :=
  quadrant_placement 5 5 (fun k => k * 7 + 3) (by omega) (by omega)

/-- Claim C8 counterexample: at `3 × 3` with the draw stream
`1, 1, 0, 0, …` the generator chooses `startPosition = exitPosition =
(1,1)` — the two positions are not always distinct. -/
theorem start_exit_can_coincide :
    (randomMazeData 3 3 (fun k => if k < 2 then 1 else 0)).startPosition =
      (randomMazeData 3 3 (fun k => if k < 2 then 1 else 0)).exitPosition ∧
    (randomMazeData 3 3 (fun k => if k < 2 then 1 else 0)).startPosition =
      ⟨1, 1⟩ := by
  constructor <;> decide

/-- Claim C8 amended: the constructor never compares the two draws, so
distinctness can fail when both dimensions are odd; but whenever `width`
or `height` is even the two quadrants are disjoint in that coordinate and
the exit is always distinct from the start. -/
theorem start_exit_distinct_even_dims (w h : ℕ) (rnd : ℕ → ℕ) (hw : 2 ≤ w)
    (hh : 2 ≤ h) (heven : w % 2 = 0 ∨ h % 2 = 0) :
    (randomMazeData w h rnd).startPosition ≠
      (randomMazeData w h rnd).exitPosition := by
  have h1 := startPositionOf_bounds w h rnd (by omega) (by omega)
  have h2 := exitPositionOf_bounds w h rnd (by omega) (by omega)
  rw [randomMazeData_start, randomMazeData_exit]
  intro heq
  have hx : (startPositionOf w h rnd).x = (exitPositionOf w h rnd).x := by
    rw [heq]
  have hy : (startPositionOf w h rnd).y = (exitPositionOf w h rnd).y := by
    rw [heq]
  unfold ceilHalf at h1
  rcases heven with he | he <;> omega

/-- Witness for the amended C8 at `w = h = 4` with the all-zero stream. -/
theorem start_exit_distinct_even_dims_witness :
    (randomMazeData 4 4 (fun _ => 0)).startPosition ≠
      (randomMazeData 4 4 (fun _ => 0)).exitPosition :=
  start_exit_distinct_even_dims 4 4 (fun _ => 0) (by omega) (by omega)
    (Or.inl (by omega))

/-- Claim C7 counterexample: at `2 × 2` with the all-zero draw stream the
generated grid has a path cell at `(0,0)` — a cell of the outermost ring
(`x = 0`, `y = 0`) — because the start itself is placed there and opened. -/
theorem outer_ring_not_all_wall :
    getCell (randomMazeData 2 2 (fun _ => 0)).grid 0 0 = 0 ∧
    (randomMazeData 2 2 (fun _ => 0)).startPosition = ⟨0, 0⟩ := by
  constructor <;> decide

theorem stepToward_pos (cur ex : Position) (h1 : 0 < cur.x) (h2 : 0 < cur.y)
    (h3 : 0 < ex.x) (h4 : 0 < ex.y) :
    0 < (stepToward cur ex).x ∧ 0 < (stepToward cur ex).y := by
  unfold stepToward
  split_ifs <;> refine ⟨?_, ?_⟩ <;> (try simp) <;> omega

theorem carvePathLoopGo_ring (ex : Position) (h3 : 0 < ex.x)
    (h4 : 0 < ex.y) :
    ∀ (fuel : ℕ) (g : Grid) (cur : Position), 0 < cur.x → 0 < cur.y →
      RingPreserved g (carvePathLoopGo ex fuel g cur)
  | 0, g, _, _, _ => ringPreserved_refl g
  | fuel + 1, g, cur, h1, h2 => by
    unfold carvePathLoopGo
    split
    · exact ringPreserved_refl g
    · obtain ⟨hnx, hny⟩ := stepToward_pos cur ex h1 h2 h3 h4
      exact ringPreserved_trans
        (ringPreserved_trans (ringPreserved_setCell 0 (by omega) (by omega))
          (ringPreserved_setCell 0 (by omega) (by omega)))
        (carvePathLoopGo_ring ex h3 h4 fuel _ (stepToward cur ex) hnx hny)

theorem carvePath_ring (g : Grid) (start ex : Position) (h1 : 0 < start.x)
    (h2 : 0 < start.y) (h3 : 0 < ex.x) (h4 : 0 < ex.y) :
    RingPreserved g (carvePath g start ex) :=
  ringPreserved_trans
    (carvePathLoopGo_ring ex h3 h4 (manhattan start ex + 1) g start h1 h2)
    (ringPreserved_setCell 0 (by omega) (by omega))

theorem ensurePathToExit_ring (g : Grid) (w h : ℕ) (start ex : Position)
    (h1 : 0 < start.x) (h2 : 0 < start.y) (h3 : 0 < ex.x) (h4 : 0 < ex.y) :
    RingPreserved g (ensurePathToExit g w h start ex) := by
  unfold ensurePathToExit
  dsimp only
  split
  · exact ringPreserved_refl g
  · exact carvePath_ring g start ex h1 h2 h3 h4

theorem generateMazeGrid_ring (w h : ℕ) (rnd : ℕ → ℕ) (start ex : Position)
    (h1 : 0 < start.x) (h2 : 0 < start.y) (h3 : 0 < ex.x) (h4 : 0 < ex.y) :
    RingPreserved (initialGrid w h) (generateMazeGrid w h rnd start ex) := by
  unfold generateMazeGrid
  dsimp only
  refine ringPreserved_trans (ringPreserved_trans (ringPreserved_trans
    (ringPreserved_setCell 0 (by omega) (by omega))
    (carvePassagesFrom_ring w h rnd (w * h + 1) (start.x : ℤ)
      (start.y : ℤ) (by omega) (by omega) _ 4))
    (ringPreserved_setCell 0 (by omega) (by omega)))
    (ensurePathToExit_ring _ w h start ex h1 h2 h3 h4)

/-- Claim C7 amended: whenever the randomly chosen start is interior
(`start.x > 0` and `start.y > 0`), every cell of the top row (`y = 0`) and
the left column (`x = 0`) of the generated grid is a wall: neither the
carve (whose neighbour guard is `n > 0`), nor the exit (which lies in the
bottom-right quadrant, so `exit.x ≥ ⌊w/2⌋ ≥ 1`, `exit.y ≥ ⌊h/2⌋ ≥ 1`),
nor the repair walk (which stays between start and exit) ever writes
there.  The right/bottom edge carries no such guarantee (the carve guard
`n < dimension` admits `n = dimension - 1`, and the exit itself may lie on
it), and when the start lands on the top/left edge the claim fails
outright (see the counterexample). -/
theorem topLeft_ring_wall (w h : ℕ) (rnd : ℕ → ℕ) (hw : 2 ≤ w) (hh : 2 ≤ h)
    (hsx : 0 < (randomMazeData w h rnd).startPosition.x)
    (hsy : 0 < (randomMazeData w h rnd).startPosition.y)
    (x y : ℕ) (hring : x = 0 ∨ y = 0) :
    getCell (randomMazeData w h rnd).grid y x = 1 := by
  rw [randomMazeData_start] at hsx hsy
  obtain ⟨hex, _, hey, _⟩ := exitPositionOf_bounds w h rnd (by omega) (by omega)
  have hr := generateMazeGrid_ring w h rnd (startPositionOf w h rnd)
    (exitPositionOf w h rnd) hsx hsy (by omega) (by omega)
  have hpres := hr y x hring
  rw [randomMazeData_grid, hpres]
  exact getCell_initialGrid w h y x

/-- Witness for the amended C7 at `w = h = 5`, constant draw stream `1`
(start `(1,1)`, interior), ring cell `(0,3)`. -/
theorem topLeft_ring_wall_witness :
    getCell (randomMazeData 5 5 (fun _ => 1)).grid 3 0 = 1 :=
  topLeft_ring_wall 5 5 (fun _ => 1) (by omega) (by omega) (by decide)
    (by decide) 0 3 (Or.inl rfl)

/-- Claim C10: the connectivity-repair loop of `carvePath` terminates for
every pair of in-bounds start and exit positions: each iteration strictly
decreases the Manhattan distance to the exit by exactly one (horizontal
steps exhausted before vertical steps), so the loop performs exactly
`|start.x − exit.x| + |start.y − exit.y|` iterations, and every cell it
visits is marked as path in the resulting grid. -/
theorem carvePath_terminates_exactly (g : Grid) (w h : ℕ)
    (start ex : Position) (hd : GridDims g w h) (hsx : start.x < w)
    (hsy : start.y < h) (hex : ex.x < w) (hey : ex.y < h) :
    (∀ cur : Position, ¬(cur.x = ex.x ∧ cur.y = ex.y) →
      manhattan (stepToward cur ex) ex + 1 = manhattan cur ex) ∧
    carvePathIterations ex (manhattan start ex + 1) start =
      manhattan start ex ∧
    ∀ p ∈ carvePathVisited ex (manhattan start ex + 1) start,
      getCell (carvePath g start ex) p.y p.x = 0 :=
  ⟨fun cur hc => stepToward_manhattan_succ cur ex hc,
    carvePathIterations_eq ex _ start (by omega),
    carvePath_marks g w h start ex hd hsx hsy hex hey⟩

/-- Witness for C10: the all-wall `4 × 4` grid, start `(1,1)`,
exit `(3,2)`. -/
theorem carvePath_terminates_exactly_witness :
    (∀ cur : Position, ¬(cur.x = (⟨3, 2⟩ : Position).x ∧
        cur.y = (⟨3, 2⟩ : Position).y) →
      manhattan (stepToward cur ⟨3, 2⟩) ⟨3, 2⟩ + 1 = manhattan cur ⟨3, 2⟩) ∧
    carvePathIterations ⟨3, 2⟩ (manhattan ⟨1, 1⟩ ⟨3, 2⟩ + 1) ⟨1, 1⟩ =
      manhattan ⟨1, 1⟩ ⟨3, 2⟩ ∧
    ∀ p ∈ carvePathVisited ⟨3, 2⟩ (manhattan ⟨1, 1⟩ ⟨3, 2⟩ + 1) ⟨1, 1⟩,
      getCell (carvePath (initialGrid 4 4) ⟨1, 1⟩ ⟨3, 2⟩) p.y p.x = 0 :=
  carvePath_terminates_exactly (initialGrid 4 4) 4 4 ⟨1, 1⟩ ⟨3, 2⟩
    (gridDims_initialGrid 4 4) (by decide) (by decide) (by decide) (by decide)
